import Mathlib

/-!
Verification of the request-framing core of the Luminoth webserver
(src/main.rs).  The Rust functions are shallowly embedded as Lean
functions: bytes are natural numbers below 256, Rust strings are lists of
characters, the single socket read of read_request is represented by a
ReadOutcome value carrying the bytes the read produced, and anyhow errors
are an explicit error enumeration mirroring the error messages of the
source.
-/

set_option autoImplicit false

namespace Webserver

/-- Fixed read buffer capacity, the MAX_HEADER_SIZE constant of main.rs. -/
def MAX_HEADER_SIZE : Nat := 1024 * 8

/-- White space test of the Rust standard library function
char::is_whitespace, that is the Unicode White_Space property, used by
split_whitespace on the request line. -/
def isRustWhitespace (c : Char) : Bool :=
  let n := c.toNat
  n == 0x09 || n == 0x0A || n == 0x0B || n == 0x0C || n == 0x0D || n == 0x20 ||
    n == 0x85 || n == 0xA0 || n == 0x1680 || (0x2000 ≤ n && n ≤ 0x200A) ||
    n == 0x2028 || n == 0x2029 || n == 0x202F || n == 0x205F || n == 0x3000

/-- Accumulator loop of splitWs: collects the current run of non white
space characters in reverse in acc and emits it when a white space
character or the end of the string is reached. -/
def splitWsAux : List Char → List Char → List (List Char)
  | [], acc => if acc = [] then [] else [acc.reverse]
  | c :: cs, acc =>
    if isRustWhitespace c then
      if acc = [] then splitWsAux cs []
      else acc.reverse :: splitWsAux cs []
    else splitWsAux cs (c :: acc)

/-- Model of the Rust iterator str::split_whitespace, as the list of all
tokens it yields: the maximal non-empty runs of non white space
characters. -/
def splitWs (s : List Char) : List (List Char) := splitWsAux s []

/-- UTF-8 encoding of one character, as the Rust String type stores its
text.  The character value is split into 1 to 4 bytes according to the
standard ranges. -/
def utf8EncodeChar (c : Char) : List Nat :=
  let n := c.toNat
  if n < 0x80 then [n]
  else if n < 0x800 then [0xC0 + n / 0x40, 0x80 + n % 0x40]
  else if n < 0x10000 then
    [0xE0 + n / 0x1000, 0x80 + n / 0x40 % 0x40, 0x80 + n % 0x40]
  else
    [0xF0 + n / 0x40000, 0x80 + n / 0x1000 % 0x40, 0x80 + n / 0x40 % 0x40,
      0x80 + n % 0x40]

/-- UTF-8 encoding of a string, one character after the other. -/
def utf8Encode : List Char → List Nat
  | [] => []
  | c :: cs => utf8EncodeChar c ++ utf8Encode cs

/-- One step of the str::from_utf8 validation used at line 80 of main.rs:
decode the leading scalar value of the byte list, rejecting stray
continuation bytes, overlong forms, surrogate values and values past
0x10FFFF, and return the decoded character together with the bytes that
follow it. -/
def utf8DecodeChar1 : List Nat → Option (Char × List Nat)
  | [] => none
  | b :: rest =>
    if b < 0x80 then some (Char.ofNat b, rest)
    else if b < 0xC2 then none
    else if b < 0xE0 then
      match rest with
      | b1 :: rest1 =>
        if 0x80 ≤ b1 ∧ b1 < 0xC0 then
          some (Char.ofNat ((b - 0xC0) * 0x40 + (b1 - 0x80)), rest1)
        else none
      | [] => none
    else if b < 0xF0 then
      match rest with
      | b1 :: b2 :: rest2 =>
        if (0x80 ≤ b1 ∧ b1 < 0xC0) ∧ (0x80 ≤ b2 ∧ b2 < 0xC0) then
          let n := (b - 0xE0) * 0x1000 + (b1 - 0x80) * 0x40 + (b2 - 0x80)
          if n < 0x800 then none
          else if 0xD800 ≤ n ∧ n < 0xE000 then none
          else some (Char.ofNat n, rest2)
        else none
      | _ => none
    else if b < 0xF5 then
      match rest with
      | b1 :: b2 :: b3 :: rest3 =>
        if (0x80 ≤ b1 ∧ b1 < 0xC0) ∧ (0x80 ≤ b2 ∧ b2 < 0xC0) ∧
            (0x80 ≤ b3 ∧ b3 < 0xC0) then
          let n := (b - 0xF0) * 0x40000 + (b1 - 0x80) * 0x1000 +
            (b2 - 0x80) * 0x40 + (b3 - 0x80)
          if n < 0x10000 then none
          else if 0x110000 ≤ n then none
          else some (Char.ofNat n, rest3)
        else none
      | _ => none
    else none

/-- Validation loop of str::from_utf8: decode leading characters one after
the other until the input is exhausted.  The fuel argument bounds the
number of iterations; every step consumes at least one byte, so the length
of the list is always enough fuel. -/
def utf8DecodeGo : Nat → List Nat → Option (List Char)
  | _, [] => some []
  | 0, _ :: _ => none
  | fuel + 1, b :: rest =>
    match utf8DecodeChar1 (b :: rest) with
    | none => none
    | some (c, rest2) => (utf8DecodeGo fuel rest2).map (fun cs => c :: cs)

/-- Model of the Rust standard library function str::from_utf8 used at
line 80 of main.rs: full validation of the byte list, returning its
decoded characters, or none when the bytes are not valid UTF-8. -/
def utf8Decode (bs : List Nat) : Option (List Char) :=
  utf8DecodeGo bs.length bs

/-- The Method enumeration of main.rs: only the retrieval method exists. -/
inductive Method where
  | get
deriving DecidableEq

deriving instance DecidableEq for Except

/-- Error enumeration standing for the anyhow error values produced in
main.rs, one constructor per distinct error message or source. -/
inductive ReqError where
  /-- the io::Error propagated from a failed read or write -/
  | ioError
  /-- message: read timeout -/
  | readTimeout
  /-- message: too much -/
  | tooMuch
  /-- the Utf8Error propagated from str::from_utf8 -/
  | utf8Error
  /-- message: missing method -/
  | missingMethod
  /-- message: unsupported method, carrying the offending token -/
  | unsupportedMethod (m : List Char)
  /-- message: missing path -/
  | missingPath
deriving DecidableEq

/-- The TryFrom implementation for Method in main.rs, lines 20 to 29. -/
def Method.try_from (value : List Char) : Except ReqError Method :=
  if value = "GET".data then .ok .get
  else .error (.unsupportedMethod value)

/-- The Request value type of main.rs: method, path, header map.  The
HashMap of the source is embedded as an association list. -/
structure Request where
  method : Method
  path : List Char
  headers : List (List Char × List Char)
deriving DecidableEq

/-- Request::new of main.rs, lines 39 to 45: the header map starts empty. -/
def Request.new (method : Method) (path : List Char) : Request :=
  { method := method, path := path, headers := [] }

/-- Loop body of next_line_break, main.rs lines 57 to 68.  The fuel
argument is a bound on the remaining iterations; the callers always pass
enough for the loop to reach its own exit condition. -/
def next_line_break_go (buf : List Nat) : Nat → Nat → Option Nat
  | _, 0 => none
  | idx, fuel + 1 =>
    if buf.length - 1 ≤ idx then none
    else if buf[idx]? = some 13 ∧ buf[idx + 1]? = some 10 then some idx
    else next_line_break_go buf (idx + 1) fuel

/-- The next_line_break function of main.rs, lines 52 to 69: offset of the
first carriage return immediately followed by a line feed, none if the
slice has no such pair. -/
def next_line_break (buf : List Nat) : Option Nat :=
  if buf.length < 2 then none
  else next_line_break_go buf 0 buf.length

/-- Proposition: buf holds the byte 13 at offset i and the byte 10 right
after it (both offsets in bounds). -/
def crlfAt (buf : List Nat) (i : Nat) : Prop :=
  buf[i]? = some 13 ∧ buf[i + 1]? = some 10

instance (buf : List Nat) (i : Nat) : Decidable (crlfAt buf i) := by
  unfold crlfAt; exact inferInstance

/-- Outcome of the single timed socket read in read_request, main.rs lines
73 to 77: the bytes obtained on success (possibly none, when the peer
closed the connection), an io error, or expiry of the read deadline. -/
inductive ReadOutcome where
  | success (data : List Nat)
  | ioFailed
  | timedOut
deriving DecidableEq

/-- Parsing of the framed request line, main.rs lines 84 to 96 and 116:
split on white space, convert the first token into a Method, take the
second token as the path, ignore the rest, and build the request with an
empty header map (the header loop of the source is commented out). -/
def parse_line (line : List Char) : Except ReqError Request :=
  match splitWs line with
  | [] => .error .missingMethod
  | t :: rest =>
    match Method.try_from t with
    | .error e => .error e
    | .ok method =>
      match rest with
      | [] => .error .missingPath
      | path :: _ => .ok (Request.new method path)

/-- The read_request function of main.rs, lines 71 to 117, as a function
of the outcome of its single read: frame the request line with
next_line_break, decode it as UTF-8, and parse it. -/
def read_request (r : ReadOutcome) : Except ReqError Request :=
  match r with
  | .ioFailed => .error .ioError
  | .timedOut => .error .readTimeout
  | .success data =>
    match next_line_break data with
    | none => .error .tooMuch
    | some idx =>
      match utf8Decode (data.take idx) with
      | none => .error .utf8Error
      | some line => parse_line line

/-- The Status enumeration of main.rs, lines 119 to 126. -/
inductive Status where
  | ok
  | notFound
deriving DecidableEq

/-- The strum Display implementation of Status as written in the source:
both variants carry the serialization attribute 200 OK. -/
def Status.display : Status → List Char
  | .ok => "200 OK".data
  | .notFound => "200 OK".data

/-- The Response value type of main.rs, lines 128 to 132. -/
structure Response where
  status : Status
  headers : List (List Char × List Char)
deriving DecidableEq

/-- Response::new of main.rs, lines 135 to 140. -/
def Response.new (status : Status) : Response :=
  { status := status, headers := [] }

/-- The bytes Response::write sends on its success path, main.rs lines 146
to 161: the formatted status line and nothing else. -/
def Response.writeBytes (self : Response) : List Nat :=
  utf8Encode ("HTTP/1.1 ".data ++ self.status.display ++ "\r\n\r\n".data)

/-- The handle_request function of main.rs, lines 164 to 171: every
request is answered with a fresh Ok response. -/
def handle_request (_request : Request) : Except ReqError Response :=
  .ok (Response.new .ok)

/-- The handle_connection function of main.rs, lines 173 to 181, returning
its result together with the bytes written to the connection: nothing is
written when read_request or handle_request fails, the response status
line is written otherwise. -/
def handle_connection (r : ReadOutcome) : Except ReqError Unit × List Nat :=
  match read_request r with
  | .error e => (.error e, [])
  | .ok request =>
    match handle_request request with
    | .error e => (.error e, [])
    | .ok response => (.ok (), response.writeBytes)

/-! ## Frame locator lemmas -/

lemma crlfAt_lt_length {buf : List Nat} {i : Nat} (h : crlfAt buf i) :
    i + 1 < buf.length := by
  rcases h with ⟨-, h2⟩
  rcases List.getElem?_eq_some_iff.mp h2 with ⟨hlt, -⟩
  exact hlt

lemma next_line_break_go_eq_some_iff (buf : List Nat) :
    ∀ (fuel idx i : Nat), buf.length - 1 - idx ≤ fuel →
      (next_line_break_go buf idx fuel = some i ↔
        (idx ≤ i ∧ crlfAt buf i ∧ ∀ j, idx ≤ j → j < i → ¬ crlfAt buf j)) := by
  intro fuel
  induction fuel with
  | zero =>
    intro idx i hfuel
    unfold next_line_break_go
    constructor
    · intro h; cases h
    · rintro ⟨hle, hc, -⟩
      have := crlfAt_lt_length hc
      omega
  | succ fuel ih =>
    intro idx i hfuel
    unfold next_line_break_go
    by_cases hstop : buf.length - 1 ≤ idx
    · rw [if_pos hstop]
      constructor
      · intro h; cases h
      · rintro ⟨hle, hc, -⟩
        have := crlfAt_lt_length hc
        omega
    · rw [if_neg hstop]
      by_cases hcr : buf[idx]? = some 13 ∧ buf[idx + 1]? = some 10
      · rw [if_pos hcr]
        constructor
        · intro h
          injection h with h
          subst h
          exact ⟨Nat.le_refl _, hcr, fun j h1 h2 => by omega⟩
        · rintro ⟨hle, hc, hmin⟩
          by_cases heq : i = idx
          · rw [heq]
          · exact absurd hcr (hmin idx (Nat.le_refl _) (by omega))
      · rw [if_neg hcr]
        rw [ih (idx + 1) i (by omega)]
        constructor
        · rintro ⟨hle, hc, hmin⟩
          refine ⟨by omega, hc, fun j h1 h2 => ?_⟩
          by_cases hj : j = idx
          · rw [hj]; exact hcr
          · exact hmin j (by omega) h2
        · rintro ⟨hle, hc, hmin⟩
          have hne : i ≠ idx := fun he => hcr (he ▸ hc)
          exact ⟨by omega, hc, fun j h1 h2 => hmin j (by omega) h2⟩

lemma next_line_break_eq_some_iff (buf : List Nat) (i : Nat) :
    next_line_break buf = some i ↔
      (crlfAt buf i ∧ ∀ j, j < i → ¬ crlfAt buf j) := by
  unfold next_line_break
  by_cases h2 : buf.length < 2
  · rw [if_pos h2]
    constructor
    · intro h; cases h
    · rintro ⟨hc, -⟩
      have := crlfAt_lt_length hc
      omega
  · rw [if_neg h2]
    rw [next_line_break_go_eq_some_iff buf buf.length 0 i (by omega)]
    constructor
    · rintro ⟨-, hc, hmin⟩
      exact ⟨hc, fun j hj => hmin j (Nat.zero_le _) hj⟩
    · rintro ⟨hc, hmin⟩
      exact ⟨Nat.zero_le _, hc, fun j _ hj => hmin j hj⟩

lemma next_line_break_eq_none_iff (buf : List Nat) :
    next_line_break buf = none ↔ ∀ i, ¬ crlfAt buf i := by
  constructor
  · intro h i hc
    have hex : ∃ j, crlfAt buf j := ⟨i, hc⟩
    have hfind := Nat.find_spec hex
    have hmin : ∀ m, m < Nat.find hex → ¬ crlfAt buf m :=
      fun m hm => Nat.find_min hex hm
    have hsome : next_line_break buf = some (Nat.find hex) :=
      (next_line_break_eq_some_iff buf _).mpr ⟨hfind, hmin⟩
    rw [h] at hsome
    cases hsome
  · intro h
    cases hnb : next_line_break buf with
    | none => rfl
    | some i =>
      exact absurd ((next_line_break_eq_some_iff buf i).mp hnb).1 (h i)

lemma next_line_break_append_crlf (bs tail : List Nat) (h13 : 13 ∉ bs) :
    next_line_break (bs ++ 13 :: 10 :: tail) = some bs.length := by
  rw [next_line_break_eq_some_iff]
  refine ⟨⟨?_, ?_⟩, ?_⟩
  · rw [List.getElem?_append_right (Nat.le_refl _)]
    simp
  · rw [List.getElem?_append_right (by omega)]
    have h1 : bs.length + 1 - bs.length = 1 := by omega
    rw [h1]
    simp
  · intro j hj hc
    rcases hc with ⟨h1, -⟩
    rw [List.getElem?_append_left hj] at h1
    exact h13 (List.getElem?_mem h1)

/-! ## Token splitting lemmas -/

lemma splitWsAux_cons_not_ws {c : Char} (cs acc : List Char)
    (h : isRustWhitespace c = false) :
    splitWsAux (c :: cs) acc = splitWsAux cs (c :: acc) := by
  simp only [splitWsAux]
  rw [if_neg (by simp [h])]

lemma splitWsAux_cons_ws {c : Char} (cs acc : List Char)
    (h : isRustWhitespace c = true) (ha : acc ≠ []) :
    splitWsAux (c :: cs) acc = acc.reverse :: splitWsAux cs [] := by
  simp only [splitWsAux]
  rw [if_pos h, if_neg ha]

lemma splitWsAux_no_ws (l : List Char) :
    ∀ acc : List Char, (∀ c ∈ l, isRustWhitespace c = false) →
      (acc ≠ [] ∨ l ≠ []) → splitWsAux l acc = [acc.reverse ++ l] := by
  induction l with
  | nil =>
    intro acc h hne
    unfold splitWsAux
    rw [if_neg (by tauto)]
    simp
  | cons c cs ih =>
    intro acc h hne
    rw [splitWsAux_cons_not_ws cs acc (h c (List.mem_cons_self c cs))]
    rw [ih (c :: acc) (fun d hd => h d (List.mem_cons_of_mem c hd))
      (Or.inl (by simp))]
    simp

lemma splitWs_request_line (p : List Char) (hne : p ≠ [])
    (hws : ∀ c ∈ p, isRustWhitespace c = false) :
    splitWs ("GET ".data ++ p) = ["GET".data, p] := by
  have hdata : "GET ".data = ['G', 'E', 'T', ' '] := rfl
  rw [splitWs, hdata]
  simp only [List.cons_append, List.nil_append]
  rw [splitWsAux_cons_not_ws _ _ (by decide)]
  rw [splitWsAux_cons_not_ws _ _ (by decide)]
  rw [splitWsAux_cons_not_ws _ _ (by decide)]
  rw [splitWsAux_cons_ws _ _ (by decide) (by simp)]
  rw [splitWsAux_no_ws p [] hws (Or.inr hne)]
  simp

/-! ## UTF-8 lemmas -/

lemma char_valid_nat (c : Char) :
    c.toNat < 0xD800 ∨ (0xDFFF < c.toNat ∧ c.toNat < 0x110000) := c.valid

lemma utf8Encode_append (s t : List Char) :
    utf8Encode (s ++ t) = utf8Encode s ++ utf8Encode t := by
  induction s with
  | nil => rfl
  | cons c cs ih =>
    show utf8EncodeChar c ++ utf8Encode (cs ++ t) =
      (utf8EncodeChar c ++ utf8Encode cs) ++ utf8Encode t
    rw [ih, List.append_assoc]

lemma utf8EncodeChar_ne_nil (c : Char) : utf8EncodeChar c ≠ [] := by
  simp only [utf8EncodeChar]
  by_cases h1 : c.toNat < 0x80
  · rw [if_pos h1]; simp
  · by_cases h2 : c.toNat < 0x800
    · rw [if_neg h1, if_pos h2]; simp
    · by_cases h3 : c.toNat < 0x10000
      · rw [if_neg h1, if_neg h2, if_pos h3]; simp
      · rw [if_neg h1, if_neg h2, if_neg h3]; simp

lemma utf8DecodeChar1_encodeChar (c : Char) (bs : List Nat) :
    utf8DecodeChar1 (utf8EncodeChar c ++ bs) = some (c, bs) := by
  have hvalid := char_valid_nat c
  by_cases h1 : c.toNat < 0x80
  · have henc : utf8EncodeChar c = [c.toNat] := by
      simp only [utf8EncodeChar]; rw [if_pos h1]
    rw [henc]
    simp only [List.cons_append, List.nil_append]
    simp only [utf8DecodeChar1]
    rw [if_pos h1, Char.ofNat_toNat]
  · by_cases h2 : c.toNat < 0x800
    · have henc : utf8EncodeChar c =
          [0xC0 + c.toNat / 0x40, 0x80 + c.toNat % 0x40] := by
        simp only [utf8EncodeChar]; rw [if_neg h1, if_pos h2]
      rw [henc]
      simp only [List.cons_append, List.nil_append]
      simp only [utf8DecodeChar1]
      have hA : ¬ 0xC0 + c.toNat / 0x40 < 0x80 := by omega
      have hB : ¬ 0xC0 + c.toNat / 0x40 < 0xC2 := by omega
      have hC : 0xC0 + c.toNat / 0x40 < 0xE0 := by omega
      have hD : 0x80 ≤ 0x80 + c.toNat % 0x40 ∧
          0x80 + c.toNat % 0x40 < 0xC0 := by omega
      simp only [if_neg hA, if_neg hB, if_pos hC, if_pos hD]
      have harith : (0xC0 + c.toNat / 0x40 - 0xC0) * 0x40 +
          (0x80 + c.toNat % 0x40 - 0x80) = c.toNat := by omega
      rw [harith, Char.ofNat_toNat]
    · by_cases h3 : c.toNat < 0x10000
      · have henc : utf8EncodeChar c = [0xE0 + c.toNat / 0x1000,
            0x80 + c.toNat / 0x40 % 0x40, 0x80 + c.toNat % 0x40] := by
          simp only [utf8EncodeChar]; rw [if_neg h1, if_neg h2, if_pos h3]
        rw [henc]
        simp only [List.cons_append, List.nil_append]
        simp only [utf8DecodeChar1]
        have hA : ¬ 0xE0 + c.toNat / 0x1000 < 0x80 := by omega
        have hB : ¬ 0xE0 + c.toNat / 0x1000 < 0xC2 := by omega
        have hC : ¬ 0xE0 + c.toNat / 0x1000 < 0xE0 := by omega
        have hD : 0xE0 + c.toNat / 0x1000 < 0xF0 := by omega
        have hE : (0x80 ≤ 0x80 + c.toNat / 0x40 % 0x40 ∧
              0x80 + c.toNat / 0x40 % 0x40 < 0xC0) ∧
            0x80 ≤ 0x80 + c.toNat % 0x40 ∧
              0x80 + c.toNat % 0x40 < 0xC0 := by
          refine ⟨⟨?_, ?_⟩, ?_, ?_⟩ <;> omega
        simp only [if_neg hA, if_neg hB, if_neg hC, if_pos hD, if_pos hE]
        have harith : (0xE0 + c.toNat / 0x1000 - 0xE0) * 0x1000 +
            (0x80 + c.toNat / 0x40 % 0x40 - 0x80) * 0x40 +
            (0x80 + c.toNat % 0x40 - 0x80) = c.toNat := by omega
        rw [harith]
        rw [if_neg (by omega), if_neg (by omega), Char.ofNat_toNat]
      · have henc : utf8EncodeChar c = [0xF0 + c.toNat / 0x40000,
            0x80 + c.toNat / 0x1000 % 0x40, 0x80 + c.toNat / 0x40 % 0x40,
            0x80 + c.toNat % 0x40] := by
          simp only [utf8EncodeChar]; rw [if_neg h1, if_neg h2, if_neg h3]
        rw [henc]
        simp only [List.cons_append, List.nil_append]
        simp only [utf8DecodeChar1]
        have hA : ¬ 0xF0 + c.toNat / 0x40000 < 0x80 := by omega
        have hB : ¬ 0xF0 + c.toNat / 0x40000 < 0xC2 := by omega
        have hC : ¬ 0xF0 + c.toNat / 0x40000 < 0xE0 := by omega
        have hD : ¬ 0xF0 + c.toNat / 0x40000 < 0xF0 := by omega
        have hD2 : 0xF0 + c.toNat / 0x40000 < 0xF5 := by omega
        have hE : (0x80 ≤ 0x80 + c.toNat / 0x1000 % 0x40 ∧
              0x80 + c.toNat / 0x1000 % 0x40 < 0xC0) ∧
            (0x80 ≤ 0x80 + c.toNat / 0x40 % 0x40 ∧
              0x80 + c.toNat / 0x40 % 0x40 < 0xC0) ∧
            0x80 ≤ 0x80 + c.toNat % 0x40 ∧
              0x80 + c.toNat % 0x40 < 0xC0 := by
          refine ⟨⟨?_, ?_⟩, ⟨?_, ?_⟩, ?_, ?_⟩ <;> omega
        simp only [if_neg hA, if_neg hB, if_neg hC, if_neg hD, if_pos hD2,
          if_pos hE]
        have harith : (0xF0 + c.toNat / 0x40000 - 0xF0) * 0x40000 +
            (0x80 + c.toNat / 0x1000 % 0x40 - 0x80) * 0x1000 +
            (0x80 + c.toNat / 0x40 % 0x40 - 0x80) * 0x40 +
            (0x80 + c.toNat % 0x40 - 0x80) = c.toNat := by omega
        rw [harith]
        rw [if_neg (by omega), if_neg (by omega), Char.ofNat_toNat]

lemma utf8Decode_utf8Encode (s : List Char) :
    utf8Decode (utf8Encode s) = some s := by
  suffices h : ∀ fuel t, (utf8Encode t).length ≤ fuel →
      utf8DecodeGo fuel (utf8Encode t) = some t by
    exact h _ s (Nat.le_refl _)
  intro fuel
  induction fuel with
  | zero =>
    intro t ht
    cases t with
    | nil => rfl
    | cons c cs =>
      exfalso
      have hpos : 0 < (utf8EncodeChar c).length :=
        List.length_pos.mpr (utf8EncodeChar_ne_nil c)
      have h2 : utf8Encode (c :: cs) = utf8EncodeChar c ++ utf8Encode cs :=
        rfl
      rw [h2, List.length_append] at ht
      omega
  | succ fuel ih =>
    intro t ht
    cases t with
    | nil => rfl
    | cons c cs =>
      have h2 : utf8Encode (c :: cs) = utf8EncodeChar c ++ utf8Encode cs :=
        rfl
      rw [h2] at ht ⊢
      obtain ⟨b, bs2, hb⟩ : ∃ b bs2, utf8EncodeChar c = b :: bs2 := by
        cases hx : utf8EncodeChar c with
        | nil => exact absurd hx (utf8EncodeChar_ne_nil c)
        | cons b bs2 => exact ⟨b, bs2, rfl⟩
      have hchar := utf8DecodeChar1_encodeChar c (utf8Encode cs)
      rw [hb] at ht hchar ⊢
      simp only [List.cons_append] at ht hchar ⊢
      have hlen : (utf8Encode cs).length ≤ fuel := by
        rw [List.length_cons, List.length_append] at ht
        omega
      show (match utf8DecodeChar1 (b :: (bs2 ++ utf8Encode cs)) with
        | none => none
        | some (c2, rest2) =>
          (utf8DecodeGo fuel rest2).map (fun cs2 => c2 :: cs2)) =
          some (c :: cs)
      rw [hchar]
      show (utf8DecodeGo fuel (utf8Encode cs)).map (fun cs2 => c :: cs2) =
        some (c :: cs)
      rw [ih cs hlen]
      rfl

lemma utf8EncodeChar_no_13 {c : Char} (hc : c ≠ '\r') :
    13 ∉ utf8EncodeChar c := by
  intro hmem
  by_cases h1 : c.toNat < 0x80
  · have henc : utf8EncodeChar c = [c.toNat] := by
      simp only [utf8EncodeChar]; rw [if_pos h1]
    rw [henc] at hmem
    simp at hmem
    apply hc
    have h13 : c.toNat = 13 := hmem.symm
    rw [← Char.ofNat_toNat c, h13]
  · by_cases h2 : c.toNat < 0x800
    · have henc : utf8EncodeChar c =
          [0xC0 + c.toNat / 0x40, 0x80 + c.toNat % 0x40] := by
        simp only [utf8EncodeChar]; rw [if_neg h1, if_pos h2]
      rw [henc] at hmem
      simp [List.mem_cons] at hmem
      rcases hmem with h | h <;> omega
    · by_cases h3 : c.toNat < 0x10000
      · have henc : utf8EncodeChar c = [0xE0 + c.toNat / 0x1000,
            0x80 + c.toNat / 0x40 % 0x40, 0x80 + c.toNat % 0x40] := by
          simp only [utf8EncodeChar]; rw [if_neg h1, if_neg h2, if_pos h3]
        rw [henc] at hmem
        simp [List.mem_cons] at hmem
        rcases hmem with h | h | h <;> omega
      · have henc : utf8EncodeChar c = [0xF0 + c.toNat / 0x40000,
            0x80 + c.toNat / 0x1000 % 0x40, 0x80 + c.toNat / 0x40 % 0x40,
            0x80 + c.toNat % 0x40] := by
          simp only [utf8EncodeChar]; rw [if_neg h1, if_neg h2, if_neg h3]
        rw [henc] at hmem
        simp [List.mem_cons] at hmem
        rcases hmem with h | h | h | h <;> omega

lemma utf8Encode_no_13 {s : List Char} (hs : '\r' ∉ s) :
    13 ∉ utf8Encode s := by
  induction s with
  | nil => simp [utf8Encode]
  | cons c cs ih =>
    intro hmem
    have hsplit : utf8Encode (c :: cs) = utf8EncodeChar c ++ utf8Encode cs :=
      rfl
    rw [hsplit] at hmem
    rcases List.mem_append.mp hmem with h | h
    · exact utf8EncodeChar_no_13
        (fun he => hs (he ▸ List.mem_cons_self c cs)) h
    · exact ih (fun hm => hs (List.mem_cons_of_mem c hm)) h

/-! ## Request reading lemmas -/

lemma read_request_success (data : List Nat) :
    read_request (.success data) =
      match next_line_break data with
      | none => .error .tooMuch
      | some idx =>
        match utf8Decode (data.take idx) with
        | none => .error .utf8Error
        | some line => parse_line line := rfl

lemma parse_line_get (line : List Char) (p : List Char)
    (rest : List (List Char)) (hsw : splitWs line = "GET".data :: p :: rest) :
    parse_line line = .ok (Request.new .get p) := by
  unfold parse_line
  rw [hsw]
  rfl

lemma read_request_wellformed (p : List Char) (hne : p ≠ [])
    (hws : ∀ c ∈ p, isRustWhitespace c = false) :
    read_request
        (.success (utf8Encode (("GET ".data ++ p) ++ "\r\n\r\n".data))) =
      .ok (Request.new .get p) := by
  have hnocr : '\r' ∉ "GET ".data ++ p := by
    intro hmem
    rcases List.mem_append.mp hmem with h | h
    · have hgd : "GET ".data = ['G', 'E', 'T', ' '] := rfl
      rw [hgd] at h
      simp at h
    · exact absurd (hws '\r' h) (by decide)
  have h13 : 13 ∉ utf8Encode ("GET ".data ++ p) := utf8Encode_no_13 hnocr
  have hsplit : utf8Encode (("GET ".data ++ p) ++ "\r\n\r\n".data) =
      utf8Encode ("GET ".data ++ p) ++ 13 :: 10 :: [13, 10] := by
    rw [utf8Encode_append]
    rfl
  have hnlb := next_line_break_append_crlf
    (utf8Encode ("GET ".data ++ p)) [13, 10] h13
  have hparse : parse_line ("GET ".data ++ p) = .ok (Request.new .get p) := by
    unfold parse_line
    rw [splitWs_request_line p hne hws]
    rfl
  rw [read_request_success]
  simp only [hsplit, hnlb, List.take_left, utf8Decode_utf8Encode]
  exact hparse

lemma parse_line_ok_headers (line : List Char) (req : Request)
    (h : parse_line line = .ok req) : req.headers = [] := by
  unfold parse_line at h
  repeat' split at h
  all_goals try (injection h with h2; subst h2; rfl)
  all_goals simp_all [Request.new]

lemma read_request_ok_headers (r : ReadOutcome) (req : Request)
    (h : read_request r = .ok req) : req.headers = [] := by
  cases r with
  | ioFailed => simp [read_request] at h
  | timedOut => simp [read_request] at h
  | success data =>
    rw [read_request_success] at h
    repeat' split at h
    all_goals first
      | simp_all
      | exact parse_line_ok_headers _ _ h

lemma read_request_take_crlf (data : List Nat) (idx : Nat)
    (suffix : List Nat) (h : next_line_break data = some idx) :
    read_request (.success (data.take (idx + 2) ++ suffix)) =
      read_request (.success data) := by
  obtain ⟨hc, hmin⟩ := (next_line_break_eq_some_iff data idx).mp h
  have hlen : idx + 1 < data.length := crlfAt_lt_length hc
  have hpre : (data.take (idx + 2)).length = idx + 2 := by
    rw [List.length_take]; omega
  have hagree : ∀ j, j < idx + 2 →
      (data.take (idx + 2) ++ suffix)[j]? = data[j]? := by
    intro j hj
    rw [List.getElem?_append_left (by rw [hpre]; omega)]
    exact List.getElem?_take_of_lt hj
  have hcrlf2 : crlfAt (data.take (idx + 2) ++ suffix) idx := by
    constructor
    · rw [hagree idx (by omega)]; exact hc.1
    · rw [hagree (idx + 1) (by omega)]; exact hc.2
  have hmin2 : ∀ j, j < idx → ¬ crlfAt (data.take (idx + 2) ++ suffix) j := by
    intro j hj hcj
    apply hmin j hj
    constructor
    · rw [← hagree j (by omega)]; exact hcj.1
    · rw [← hagree (j + 1) (by omega)]; exact hcj.2
  have h2 : next_line_break (data.take (idx + 2) ++ suffix) = some idx :=
    (next_line_break_eq_some_iff _ idx).mpr ⟨hcrlf2, hmin2⟩
  have htake : (data.take (idx + 2) ++ suffix).take idx = data.take idx := by
    rw [List.take_append_eq_append_take, hpre]
    have hz : idx - (idx + 2) = 0 := by omega
    rw [hz, List.take_zero, List.append_nil, List.take_take]
    have hm : min idx (idx + 2) = idx := by omega
    rw [hm]
  rw [read_request_success, read_request_success]
  simp only [h, h2, htake]

lemma replicate_no_crlfAt (n : Nat) :
    ∀ i, ¬ crlfAt (List.replicate n 65) i := by
  rintro i ⟨h1, -⟩
  rw [List.getElem?_replicate] at h1
  by_cases h : i < n
  · rw [if_pos h] at h1
    simp at h1
  · rw [if_neg h] at h1
    cases h1

/-! ## Claim theorems -/

/-- C1: the claim states that Status serialization is injective, with Ok
serialized as 200 OK and NotFound as 404 Not Found.  In the source both
Status variants carry the serialization text 200 OK, so the two distinct
statuses collide and NotFound is not serialized as 404 Not Found: the
claim fails on the code at the concrete input Status.notFound. -/
theorem c1_status_display_collision :
    Status.ok ≠ Status.notFound ∧
      Status.display Status.notFound = Status.display Status.ok ∧
      Status.display Status.notFound ≠ "404 Not Found".data :=
  ⟨by decide, rfl, by decide⟩

/-- C2: next_line_break returns the offset of the first CR LF pair of the
byte slice and none exactly when no pair exists; it scans up to and
including the final two bytes, so a terminator occupying the last two
positions of a buffer is found, and inputs shorter than two bytes give
none. -/
theorem c2_next_line_break_spec :
    (∀ buf i, next_line_break buf = some i ↔
      (crlfAt buf i ∧ ∀ j, j < i → ¬ crlfAt buf j)) ∧
    (∀ buf, next_line_break buf = none ↔ ∀ i, ¬ crlfAt buf i) ∧
    (∀ bs, 13 ∉ bs → next_line_break (bs ++ [13, 10]) = some bs.length) ∧
    (∀ buf, buf.length < 2 → next_line_break buf = none) := by
  refine ⟨next_line_break_eq_some_iff, next_line_break_eq_none_iff, ?_, ?_⟩
  · intro bs h13
    exact next_line_break_append_crlf bs [] h13
  · intro buf h
    unfold next_line_break
    rw [if_pos h]

/-- Witness for C2: the terminator of a four byte buffer sitting in its
last two bytes is found, and a one byte input gives none. -/
theorem c2_next_line_break_spec_witness :
    next_line_break [65, 66, 13, 10] = some 2 ∧
      next_line_break [13] = none := by
  constructor
  · exact (c2_next_line_break_spec.1 [65, 66, 13, 10] 2).mpr (by decide)
  · exact c2_next_line_break_spec.2.2.2 [13] (by decide)

/-- C3 counterexample: the empty path contains no white space, yet the
input GET SP CR LF CR LF is rejected with the missing path error instead
of parsing successfully, refuting the claim at p empty. -/
theorem c3_empty_path_counterexample :
    read_request (.success (utf8Encode "GET \r\n\r\n".data)) =
      .error .missingPath := by decide

/-- C3 as amended: for the supported method and every non-empty path
containing no white space, parsing the input GET SP path CR LF CR LF
succeeds with that method, that path and an empty header map; moreover any
tokens after the path are ignored and no version token is required. -/
theorem c3_request_line_parse :
    (∀ p : List Char, p ≠ [] → (∀ c ∈ p, isRustWhitespace c = false) →
      read_request
          (.success (utf8Encode (("GET ".data ++ p) ++ "\r\n\r\n".data))) =
        .ok (Request.new .get p)) ∧
    (∀ line p rest, splitWs line = "GET".data :: p :: rest →
      parse_line line = .ok (Request.new .get p)) :=
  ⟨read_request_wellformed, parse_line_get⟩

/-- Witness for C3 at the concrete path /hello. -/
theorem c3_request_line_parse_witness :
    read_request
        (.success (utf8Encode (("GET ".data ++ "/hello".data) ++
          "\r\n\r\n".data))) =
      .ok (Request.new .get "/hello".data) :=
  c3_request_line_parse.1 "/hello".data (by decide) (by decide)

/-- C4: the claim states a read of zero bytes is reported as a distinct
closed connection condition and never as another error kind.  In the
source a zero byte read leaves an empty slice, the frame scan finds no
terminator, and read_request reports the same too much error that an
oversized request produces; no closed connection condition exists in the
code, so the claim fails at this input. -/
theorem c4_zero_byte_read_reports_too_much :
    read_request (.success []) = .error .tooMuch := by decide

/-- C5: whenever the first white space token of the request line is not
the GET token, parsing fails with the unsupported method error carrying
exactly that token, whatever the rest of the line holds; any read_request
failure makes handle_connection return with no bytes written, and the
concrete POST request ends with the unsupported method error for POST and
an empty write. -/
theorem c5_unsupported_method :
    (∀ line t rest, splitWs line = t :: rest → t ≠ "GET".data →
      parse_line line = .error (.unsupportedMethod t)) ∧
    (∀ r e, read_request r = .error e →
      handle_connection r = (.error e, [])) ∧
    handle_connection (.success (utf8Encode "POST / HTTP/1.1\r\n\r\n".data)) =
      (.error (.unsupportedMethod "POST".data), []) := by
  refine ⟨?_, ?_, by decide⟩
  · intro line t rest hsw ht
    unfold parse_line
    rw [hsw]
    simp only [Method.try_from, if_neg ht]
  · intro r e h
    unfold handle_connection
    rw [h]

/-- Witness for C5 at the concrete request line POST / HTTP/1.1. -/
theorem c5_unsupported_method_witness :
    parse_line "POST / HTTP/1.1".data =
      .error (.unsupportedMethod "POST".data) :=
  c5_unsupported_method.1 "POST / HTTP/1.1".data "POST".data
    ["/".data, "HTTP/1.1".data] (by decide) (by decide)

/-- C6: a request line whose only token is a valid method parses to the
missing path error, and a line with no token at all, in particular the
empty line, parses to the missing method error; concretely the inputs
GET CR LF CR LF and CR LF CR LF produce those two errors. -/
theorem c6_missing_tokens :
    (∀ line t m, splitWs line = [t] → Method.try_from t = .ok m →
      parse_line line = .error .missingPath) ∧
    (∀ line, splitWs line = [] →
      parse_line line = .error .missingMethod) ∧
    read_request (.success (utf8Encode "GET\r\n\r\n".data)) =
      .error .missingPath ∧
    read_request (.success (utf8Encode "\r\n\r\n".data)) =
      .error .missingMethod := by
  refine ⟨?_, ?_, by decide, by decide⟩
  · intro line t m hsw htf
    unfold parse_line
    rw [hsw]
    simp only [htf]
  · intro line hsw
    unfold parse_line
    rw [hsw]

/-- Witness for C6 at the concrete lines GET and the empty line. -/
theorem c6_missing_tokens_witness :
    parse_line "GET".data = .error .missingPath ∧
      parse_line [] = .error .missingMethod := by
  constructor
  · exact c6_missing_tokens.1 "GET".data "GET".data .get
      (by decide) (by decide)
  · exact c6_missing_tokens.2.1 [] (by decide)

/-- C7: a read that fills the whole fixed buffer with no CR LF pair
anywhere in it makes read_request fail with the too much error, the
RequestTooLarge condition of the specification, instead of succeeding or
growing the buffer. -/
theorem c7_request_too_large (data : List Nat)
    (hfull : data.length = MAX_HEADER_SIZE)
    (hnc : ∀ i, ¬ crlfAt data i) :
    read_request (.success data) = .error .tooMuch := by
  rw [read_request_success, (next_line_break_eq_none_iff data).mpr hnc]

/-- Witness for C7 at a buffer full of the byte 65. -/
theorem c7_request_too_large_witness :
    read_request (.success (List.replicate MAX_HEADER_SIZE 65)) =
      .error .tooMuch :=
  c7_request_too_large (List.replicate MAX_HEADER_SIZE 65)
    (List.length_replicate MAX_HEADER_SIZE 65)
    (replicate_no_crlfAt MAX_HEADER_SIZE)

/-- C8: the response emitter serializes exactly one status line of the
form HTTP/1.1 SP status text CR LF CR LF and nothing else, and handling
the complete concrete request GET /hello HTTP/1.1 writes exactly the
bytes of HTTP/1.1 200 OK CR LF CR LF to the connection. -/
theorem c8_response_bytes :
    (∀ resp : Response, resp.writeBytes =
      utf8Encode ("HTTP/1.1 ".data ++ resp.status.display ++
        "\r\n\r\n".data)) ∧
    handle_connection
        (.success (utf8Encode "GET /hello HTTP/1.1\r\n\r\n".data)) =
      (.ok (), utf8Encode "HTTP/1.1 200 OK\r\n\r\n".data) :=
  ⟨fun _ => rfl, by decide⟩

/-- C9: handle_request answers every request, whatever its path, with a
response whose status is Ok and whose header map is empty; every response
it ever produces has the Ok status, so the NotFound status is never
produced. -/
theorem c9_handle_request_always_ok :
    (∀ request : Request, handle_request request =
      .ok { status := Status.ok, headers := [] }) ∧
    (∀ request resp, handle_request request = .ok resp →
      resp.status = Status.ok) := by
  constructor
  · intro request
    rfl
  · intro request resp h
    injection h with h2
    rw [← h2]
    rfl

/-- Witness for C9 at a concrete request. -/
theorem c9_handle_request_always_ok_witness :
    (Response.new Status.ok).status = Status.ok :=
  c9_handle_request_always_ok.2 (Request.new .get "/".data)
    (Response.new Status.ok) rfl

/-- C10: every request produced by read_request carries an empty header
map, and all bytes after the first CR LF terminator of the buffer are
ignored: replacing everything after the terminator with an arbitrary
suffix leaves the result of read_request unchanged, with no error. -/
theorem c10_headers_empty_tail_ignored :
    (∀ r req, read_request r = .ok req → req.headers = []) ∧
    (∀ data idx suffix, next_line_break data = some idx →
      read_request (.success (data.take (idx + 2) ++ suffix)) =
        read_request (.success data)) :=
  ⟨read_request_ok_headers, read_request_take_crlf⟩

/-- Witness for C10: garbage bytes after the terminator of a concrete
request do not change the parse result. -/
theorem c10_headers_empty_tail_ignored_witness :
    read_request (.success
        ((utf8Encode "GET /\r\nHost: x\r\n\r\n".data).take (5 + 2) ++
          [255, 0])) =
      read_request (.success (utf8Encode "GET /\r\nHost: x\r\n\r\n".data)) :=
  c10_headers_empty_tail_ignored.2
    (utf8Encode "GET /\r\nHost: x\r\n\r\n".data) 5 [255, 0] (by decide)

end Webserver
